import Mathlib

/-!
Shallow embedding of the contact-manager core (`updated_botik.py`):
validated field types (Phone, Birthday), contact records, the address
book, and the command handlers, together with proofs of the spec's
claims about them.

Conventions of the embedding:
* Python exceptions caught by the `input_error` decorator become
  `Except String` results; the handler-level functions return the final
  user-facing message together with the (possibly mutated) book.
* The Python `dict` backing `AddressBook` becomes an insertion-ordered
  association list: assignment to an existing key updates in place,
  assignment to a fresh key appends.
* `datetime.strptime(value, "%d.%m.%Y")` is modelled after CPython's
  `_strptime` regexes: `%d` matches `3[0-1]|[1-2]\d|0[1-9]|[1-9]| [1-9]`, `%m`
  matches `1[0-2]|0[1-9]|[1-9]`, `%Y` matches exactly four digits, the
  whole input must be consumed, and the resulting triple must be a real
  calendar date with year at least 1.
* `strftime("%d.%m.%Y")` zero-pads day and month to two digits and the
  year to four digits.
* `date.replace(year=...)` raises `ValueError("day is out of range for
  month")` when the day does not exist in the target year's month.
-/

deriving instance DecidableEq for Except

/-- Digit characters rendered from a single decimal digit. -/
def natDigit (n : Nat) : Char := Char.ofNat (48 + n)

/-- Numeric value of a list of decimal digit characters (most significant first). -/
def natOfDigits (l : List Char) : Nat :=
  l.foldl (fun a c => a * 10 + (c.toNat - 48)) 0

/-- Gregorian leap-year rule, as in Python's `calendar.isleap` / `datetime`. -/
def isLeap (y : Nat) : Bool :=
  (y % 4 == 0 && y % 100 != 0) || (y % 400 == 0)

/-- Number of days in a month, as validated by Python's `datetime.date`. -/
def daysInMonth (y m : Nat) : Nat :=
  if m = 2 then (if isLeap y then 29 else 28)
  else if m = 4 ∨ m = 6 ∨ m = 9 ∨ m = 11 then 30
  else 31

/-- A calendar date, the value stored by `Birthday`. -/
structure Date where
  year : Nat
  month : Nat
  day : Nat
deriving DecidableEq

/-- Python `date` ordering (lexicographic on year, month, day). -/
def Date.le (a b : Date) : Bool :=
  a.year < b.year ||
    (a.year == b.year &&
      (a.month < b.month || (a.month == b.month && a.day ≤ b.day)))

/-- The day after `d` (Gregorian calendar). -/
def nextDay (d : Date) : Date :=
  if d.day < daysInMonth d.year d.month then ⟨d.year, d.month, d.day + 1⟩
  else if d.month < 12 then ⟨d.year, d.month + 1, 1⟩
  else ⟨d.year + 1, 1, 1⟩

/-- `d + timedelta(days = n)`. -/
def addDays : Date → Nat → Date
  | d, 0 => d
  | d, n + 1 => addDays (nextDay d) n

/-- Zero-padded two-digit rendering (`%d`, `%m`). -/
def pad2 (n : Nat) : List Char := [natDigit (n / 10 % 10), natDigit (n % 10)]

/-- Zero-padded four-digit rendering (`%Y`). -/
def pad4 (n : Nat) : List Char :=
  [natDigit (n / 1000 % 10), natDigit (n / 100 % 10),
   natDigit (n / 10 % 10), natDigit (n % 10)]

/-- `strftime("%d.%m.%Y")`: how a `Birthday` value is rendered back to text. -/
def renderDate (d : Date) : String :=
  ⟨pad2 d.day ++ '.' :: pad2 d.month ++ '.' :: pad4 d.year⟩

/-- The day token of `%d` (`3[0-1]|[1-2]\d|0[1-9]|[1-9]| [1-9]`): its digits
and the rest of the input, or `none` when no alternative can match.  A
leading space demands exactly one digit after it; otherwise the maximal
leading digit run must have one or two digits (value bounds are checked
later, together with calendar validity). -/
def splitDay (l : List Char) : Option (List Char × List Char) :=
  match l with
  | [] => none
  | c :: r =>
    if c = ' ' then
      if (r.takeWhile Char.isDigit).length = 1 then
        some (r.takeWhile Char.isDigit, r.dropWhile Char.isDigit)
      else none
    else
      if ((c :: r).takeWhile Char.isDigit).length = 1 ∨
          ((c :: r).takeWhile Char.isDigit).length = 2 then
        some ((c :: r).takeWhile Char.isDigit, (c :: r).dropWhile Char.isDigit)
      else none

/-- `datetime.strptime(s, "%d.%m.%Y").date()`: `none` models the `ValueError`
raised either by the format regex or by the calendar-validity check. -/
def parseDMY (s : String) : Option Date :=
  match splitDay s.toList with
  | none => none
  | some (ds, r1) =>
  match r1 with
  | '.' :: r2 =>
    let ms := r2.takeWhile Char.isDigit
    match r2.dropWhile Char.isDigit with
    | '.' :: r4 =>
      let ys := r4.takeWhile Char.isDigit
      if r4.dropWhile Char.isDigit = [] ∧
          (ms.length = 1 ∨ ms.length = 2) ∧ ys.length = 4 then
        let d := natOfDigits ds
        let m := natOfDigits ms
        let y := natOfDigits ys
        if 1 ≤ d ∧ d ≤ 31 ∧ 1 ≤ m ∧ m ≤ 12 ∧ 1 ≤ y ∧ d ≤ daysInMonth y m then
          some ⟨y, m, d⟩
        else none
      else none
    | _ => none
  | _ => none

/-- `Birthday.__init__`: parse strictly, or fail with the fixed message. -/
def birthdayMk (s : String) : Except String Date :=
  match parseDMY s with
  | some d => .ok d
  | none => .error "Invalid date format. Use DD.MM.YYYY"

/-- The first maximal contiguous digit run of a character list
(`re.findall(r'\d+', num)[0]`, or `[]` when there is no digit). -/
def firstDigitRun (l : List Char) : List Char :=
  (l.dropWhile (fun c => !c.isDigit)).takeWhile Char.isDigit

/-- A stored phone number: the raw input string kept verbatim. -/
structure Phone where
  value : String
deriving DecidableEq

/-- `Phone.__init__`: succeed iff the first digit run of the input has
length exactly 10; the original string is stored verbatim. -/
def phoneMk (s : String) : Except String Phone :=
  if (firstDigitRun s.toList).length = 10 then .ok ⟨s⟩
  else .error "Phone number must contain 10 digits"

/-- A contact record: name, ordered phone list, optional birthday. -/
structure Record where
  name : String
  phones : List Phone
  birthday : Option Date
deriving DecidableEq

/-- `Record(name)`. -/
def Record.mkEmpty (name : String) : Record := ⟨name, [], none⟩

/-- `Record.add_phone`: validate, then append. -/
def Record.add_phone (r : Record) (s : String) : Except String Record :=
  match phoneMk s with
  | .ok p => .ok { r with phones := r.phones ++ [p] }
  | .error e => .error e

/-- `Record.remove_phone`: validate, then remove the first equal phone. -/
def Record.remove_phone (r : Record) (s : String) :
    Except String (String × Record) :=
  match phoneMk s with
  | .ok p =>
    if p ∈ r.phones then
      .ok ("Removed successfully.", { r with phones := r.phones.erase p })
    else
      .ok ("This user has not such number. Nothing to delete!", r)
  | .error e => .error e

/-- `Record.edit_phone`: validate the old phone, locate its first
occurrence, validate the new phone, replace in place. -/
def Record.edit_phone (r : Record) (old new : String) :
    Except String (String × Record) :=
  match phoneMk old with
  | .error e => .error e
  | .ok po =>
    if po ∈ r.phones then
      match phoneMk new with
      | .error e => .error e
      | .ok pn =>
        .ok ("Number has changed.",
          { r with phones := r.phones.set (r.phones.indexOf po) pn })
    else
      .ok ("This user has not such number. Nothing to change!", r)

/-- `Record.add_birthday`: the new `Birthday` is constructed (and may
fail) before the assignment, so on failure the record is untouched. -/
def Record.add_birthday (r : Record) (s : String) : Except String Record :=
  match birthdayMk s with
  | .ok d => .ok { r with birthday := some d }
  | .error e => .error e

/-- The address book's backing `dict`, as an insertion-ordered association list. -/
abbrev Book := List (String × Record)

/-- `dict.get`: the record stored under `n`, if any. -/
def Book.find (b : Book) (n : String) : Option Record :=
  match b with
  | [] => none
  | (k, v) :: t => if k = n then some v else Book.find t n

/-- `dict` assignment `self.data[n] = r`: update in place if the key
exists, otherwise append (insertion order preserved). -/
def Book.set (b : Book) (n : String) (r : Record) : Book :=
  match b with
  | [] => [(n, r)]
  | (k, v) :: t => if k = n then (k, r) :: t else (k, v) :: Book.set t n r

/-- `date.replace(year=y)`: keep month and day, re-validate against `y`. -/
def replaceYear (b : Date) (y : Nat) : Except String Date :=
  if b.day ≤ daysInMonth y b.month then .ok ⟨y, b.month, b.day⟩
  else .error "day is out of range for month"

/-- `AddressBook.get_upcoming_birthdays`, with the ambient
`datetime.today()` made an explicit parameter: for each record with a
birthday, remap it onto `today`'s year (which may raise) and keep it when
it falls in the inclusive window `[today, today + 7 days]`. -/
def get_upcoming_birthdays (today : Date) (book : Book) :
    Except String (List String) :=
  match book with
  | [] => .ok []
  | (_, r) :: t =>
    match r.birthday with
    | none => get_upcoming_birthdays today t
    | some b =>
      match replaceYear b today.year with
      | .error e => .error e
      | .ok bty =>
        match get_upcoming_birthdays today t with
        | .error e => .error e
        | .ok rest =>
          if Date.le today bty && Date.le bty (addDays today 7) then
            .ok ((r.name ++ ": " ++ renderDate bty) :: rest)
          else .ok rest

/-- The `add` handler (`add_contact`): note that for a fresh name the
record is inserted into the book *before* `add_phone` validates the
phone, so a validation failure still leaves the empty record behind. -/
def add_contact (args : List String) (book : Book) : String × Book :=
  match args with
  | name :: phone :: _ =>
    match Book.find book name with
    | none =>
      match phoneMk phone with
      | .ok p => ("Contact added.", Book.set book name ⟨name, [p], none⟩)
      | .error e => (e, Book.set book name (Record.mkEmpty name))
    | some r =>
      match phoneMk phone with
      | .ok p =>
        ("Contact updated.", Book.set book name { r with phones := r.phones ++ [p] })
      | .error e => (e, book)
  | _ => ("Not enough arguments provided.", book)

/-- The `add-birthday` handler. -/
def add_birthday (args : List String) (book : Book) : String × Book :=
  match args with
  | name :: bday :: _ =>
    match Book.find book name with
    | none => ("No such user in address book!", book)
    | some r =>
      match birthdayMk bday with
      | .ok d => ("Birthday was added.", Book.set book name { r with birthday := some d })
      | .error e => (e, book)
  | _ => ("Not enough arguments provided.", book)

/-- The `change` handler (`change_phone`). -/
def change_phone (args : List String) (book : Book) : String × Book :=
  match args with
  | name :: old :: new :: _ =>
    match Book.find book name with
    | none => ("No such user in address book!", book)
    | some r =>
      match Record.edit_phone r old new with
      | .ok (msg, r2) => (msg, Book.set book name r2)
      | .error e => (e, book)
  | _ => ("Not enough arguments provided.", book)

/-- The `birthdays` handler: a raised `ValueError` inside
`get_upcoming_birthdays` is converted to its message by `input_error`. -/
def birthdays (today : Date) (book : Book) : String :=
  match get_upcoming_birthdays today book with
  | .error e => e
  | .ok l =>
    if l = [] then "No upcoming birthdays."
    else String.intercalate "\n" l


/-! Helper lemmas about the book and record operations. -/

theorem Book.set_find_self {b : Book} {n : String} {r : Record}
    (h : Book.find b n = some r) : Book.set b n r = b := by
  induction b with
  | nil => simp [Book.find] at h
  | cons hd t ih =>
    obtain ⟨k, v⟩ := hd
    by_cases hk : k = n
    · simp [Book.find, hk] at h
      simp [Book.set, hk, h]
    · simp [Book.find, hk] at h
      simp [Book.set, hk, ih h]

theorem set_append_cons {α : Type} (l₁ l₂ : List α) (a b : α) :
    (l₁ ++ a :: l₂).set l₁.length b = l₁ ++ b :: l₂ := by
  induction l₁ with
  | nil => rfl
  | cons x t ih => simp [List.set, ih]

theorem edit_phone_cases (r : Record) (old new : String) :
    (∃ e, Record.edit_phone r old new = .error e) ∨
    (∃ r2, Record.edit_phone r old new = .ok ("Number has changed.", r2)) ∨
    Record.edit_phone r old new =
      .ok ("This user has not such number. Nothing to change!", r) := by
  unfold Record.edit_phone
  cases phoneMk old with
  | error e => exact Or.inl ⟨e, rfl⟩
  | ok po =>
    by_cases hm : po ∈ r.phones
    · cases phoneMk new with
      | error e => simp [hm]
      | ok pn => simp [hm]
    · simp [hm]

/-- Claim C1 counterexample: `add Alice 123` on the empty book is rejected
(the phone is invalid), yet the book ends up with a record for Alice. -/
theorem C1_counterexample :
    add_contact ["Alice", "123"] [] =
      ("Phone number must contain 10 digits", [("Alice", ⟨"Alice", [], none⟩)]) ∧
    Book.find (add_contact ["Alice", "123"] []).2 "Alice" =
      some ⟨"Alice", [], none⟩ := by decide

/-- Claim C1 (amended): a rejected `add-birthday` or `change` leaves the book
unchanged, and a rejected `add` with an existing name leaves the book
unchanged; but a rejected `add` with a fresh name and an invalid phone
inserts an empty record for that name before the validation failure. -/
theorem C1_rejection_state (args : List String) (book : Book) :
    ((add_birthday args book).1 ≠ "Birthday was added." →
      (add_birthday args book).2 = book) ∧
    ((change_phone args book).1 ≠ "Number has changed." →
      (change_phone args book).2 = book) ∧
    (∀ name phone rest r e, args = name :: phone :: rest →
      Book.find book name = some r → phoneMk phone = .error e →
      add_contact args book = (e, book)) ∧
    (∀ name phone rest e, args = name :: phone :: rest →
      Book.find book name = none → phoneMk phone = .error e →
      add_contact args book = (e, Book.set book name (Record.mkEmpty name))) := by
  refine ⟨?_, ?_, ?_, ?_⟩
  · intro hmsg
    match args with
    | [] => rfl
    | [_] => rfl
    | name :: bday :: rest =>
      unfold add_birthday at *
      cases hf : Book.find book name with
      | none => simp [hf]
      | some r =>
        cases hb : birthdayMk bday with
        | error e => simp [hf, hb]
        | ok d => simp [hf, hb] at hmsg
  · intro hmsg
    match args with
    | [] => rfl
    | [_] => rfl
    | [_, _] => rfl
    | name :: old :: new :: rest =>
      unfold change_phone at *
      cases hf : Book.find book name with
      | none => simp [hf]
      | some r =>
        rcases edit_phone_cases r old new with ⟨e, he⟩ | ⟨r2, he⟩ | he
        · simp [hf, he]
        · simp [hf, he] at hmsg
        · simp [hf, he, Book.set_find_self hf]
  · rintro name phone rest r e rfl hf hp
    simp [add_contact, hf, hp]
  · rintro name phone rest e rfl hf hp
    simp [add_contact, hf, hp]

/-- Claim C1 witness: concrete instances of the amended statement. -/
theorem C1_rejection_state_witness :
    (add_birthday ["Alice", "99.99.9999"]
        [("Alice", ⟨"Alice", [⟨"0501234567"⟩], none⟩)]).2 =
      [("Alice", ⟨"Alice", [⟨"0501234567"⟩], none⟩)] ∧
    add_contact ["Bob", "123"] [] =
      ("Phone number must contain 10 digits", Book.set [] "Bob" (Record.mkEmpty "Bob")) := by
  constructor
  · exact (C1_rejection_state ["Alice", "99.99.9999"]
      [("Alice", ⟨"Alice", [⟨"0501234567"⟩], none⟩)]).1 (by decide)
  · exact (C1_rejection_state ["Bob", "123"] []).2.2.2 "Bob" "123" [] _ rfl
      (by decide) (by decide)

/-- Claim C4 counterexample: `"0501234567"` and `"0501234567x"` are both
valid phone inputs with the same digit run, yet `remove_phone` with one
does not find a record entry stored from the other: equality is by the
verbatim stored string, not by normalized digits. -/
theorem C4_counterexample :
    phoneMk "0501234567" = .ok ⟨"0501234567"⟩ ∧
    phoneMk "0501234567x" = .ok ⟨"0501234567x"⟩ ∧
    firstDigitRun "0501234567x".toList = firstDigitRun "0501234567".toList ∧
    Record.remove_phone ⟨"Alice", [⟨"0501234567"⟩], none⟩ "0501234567x" =
      .ok ("This user has not such number. Nothing to delete!",
        ⟨"Alice", [⟨"0501234567"⟩], none⟩) := by decide

/-- Claim C4 (amended): phone equality compares the verbatim stored raw
strings; `remove_phone` removes the first entry whose stored string equals
the input exactly, and reports failure otherwise. -/
theorem C4_equality_verbatim (r : Record) (s : String)
    (h : phoneMk s = .ok ⟨s⟩) :
    (∀ p ∈ r.phones, p = ⟨s⟩ ↔ p.value = s) ∧
    (Phone.mk s ∈ r.phones →
      Record.remove_phone r s =
        .ok ("Removed successfully.", { r with phones := r.phones.erase ⟨s⟩ })) ∧
    (Phone.mk s ∉ r.phones →
      Record.remove_phone r s =
        .ok ("This user has not such number. Nothing to delete!", r)) := by
  refine ⟨?_, ?_, ?_⟩
  · rintro ⟨v⟩ _
    simp
  · intro hm
    simp [Record.remove_phone, h, hm]
  · intro hm
    simp [Record.remove_phone, h, hm]

/-- Claim C4 witness for the amended statement. -/
theorem C4_equality_verbatim_witness :
    Record.remove_phone ⟨"Alice", [⟨"0501234567"⟩], none⟩ "0501234567" =
      .ok ("Removed successfully.", { name := "Alice", phones := [], birthday := none }) := by
  have h := (C4_equality_verbatim ⟨"Alice", [⟨"0501234567"⟩], none⟩ "0501234567"
    (by decide)).2.1 (by decide)
  simpa using h

/-- Claim C6: on a record containing a valid number exactly once, removing
it twice succeeds once and then reports nothing to delete, after which the
number is absent. -/
theorem C6_remove_twice (r : Record) (s : String)
    (hv : phoneMk s = .ok ⟨s⟩)
    (hcount : r.phones.count ⟨s⟩ = 1) :
    ∃ r2, Record.remove_phone r s = .ok ("Removed successfully.", r2) ∧
      Record.remove_phone r2 s =
        .ok ("This user has not such number. Nothing to delete!", r2) ∧
      Phone.mk s ∉ r2.phones := by
  have hmem : Phone.mk s ∈ r.phones := by
    rw [← List.count_pos_iff, hcount]
    exact Nat.one_pos
  refine ⟨{ r with phones := r.phones.erase ⟨s⟩ }, ?_, ?_, ?_⟩
  · simp [Record.remove_phone, hv, hmem]
  · have : Phone.mk s ∉ r.phones.erase ⟨s⟩ := by
      rw [← List.count_eq_zero, List.count_erase_self, hcount]
    simp [Record.remove_phone, hv, this]
  · rw [← List.count_eq_zero, List.count_erase_self, hcount]

/-- Claim C6 witness: a concrete record holding `"0501234567"` once. -/
theorem C6_remove_twice_witness :
    ∃ r2, Record.remove_phone ⟨"Alice", [⟨"0501234567"⟩], none⟩ "0501234567" =
        .ok ("Removed successfully.", r2) ∧
      Record.remove_phone r2 "0501234567" =
        .ok ("This user has not such number. Nothing to delete!", r2) ∧
      Phone.mk "0501234567" ∉ r2.phones :=
  C6_remove_twice ⟨"Alice", [⟨"0501234567"⟩], none⟩ "0501234567"
    (by decide) (by decide)

/-- Claim C7: `add Alice 0501234567` on the empty book creates the record
with exactly that phone; a second `add Alice 0509999999` appends to the
same record in insertion order, with the book still holding one record. -/
theorem C7_add_scenario :
    add_contact ["Alice", "0501234567"] [] =
      ("Contact added.", [("Alice", ⟨"Alice", [⟨"0501234567"⟩], none⟩)]) ∧
    add_contact ["Alice", "0509999999"]
        [("Alice", ⟨"Alice", [⟨"0501234567"⟩], none⟩)] =
      ("Contact updated.",
        [("Alice", ⟨"Alice", [⟨"0501234567"⟩, ⟨"0509999999"⟩], none⟩)]) := by decide

/-- Claim C9: `add_birthday` validates the new birthday string before
assigning: on an invalid string it fails with the fixed message and the
book (hence the record's stored birthday) is unchanged; the birthday is
overwritten exactly when validation succeeds. -/
theorem C9_birthday_validation_first (name s : String) (rest : List String)
    (book : Book) (r : Record) (hfind : Book.find book name = some r) :
    (parseDMY s = none →
      Record.add_birthday r s = .error "Invalid date format. Use DD.MM.YYYY" ∧
      add_birthday (name :: s :: rest) book =
        ("Invalid date format. Use DD.MM.YYYY", book)) ∧
    (∀ d, parseDMY s = some d →
      add_birthday (name :: s :: rest) book =
        ("Birthday was added.", Book.set book name { r with birthday := some d })) := by
  constructor
  · intro hbad
    constructor
    · simp [Record.add_birthday, birthdayMk, hbad]
    · simp [add_birthday, hfind, birthdayMk, hbad]
  · intro d hd
    simp [add_birthday, hfind, birthdayMk, hd]

/-- Claim C9 witness: an invalid date leaves Alice's stored birthday in
place, and a valid one overwrites it. -/
theorem C9_birthday_validation_first_witness :
    add_birthday ["Alice", "31.02.2001"]
        [("Alice", ⟨"Alice", [], some ⟨1990, 3, 15⟩⟩)] =
      ("Invalid date format. Use DD.MM.YYYY",
        [("Alice", ⟨"Alice", [], some ⟨1990, 3, 15⟩⟩)]) ∧
    add_birthday ["Alice", "16.04.1991"]
        [("Alice", ⟨"Alice", [], some ⟨1990, 3, 15⟩⟩)] =
      ("Birthday was added.",
        Book.set [("Alice", ⟨"Alice", [], some ⟨1990, 3, 15⟩⟩)] "Alice"
          ⟨"Alice", [], some ⟨1991, 4, 16⟩⟩) := by
  constructor
  · exact ((C9_birthday_validation_first "Alice" "31.02.2001" []
      [("Alice", ⟨"Alice", [], some ⟨1990, 3, 15⟩⟩)]
      ⟨"Alice", [], some ⟨1990, 3, 15⟩⟩ (by decide)).1 (by decide)).2
  · exact (C9_birthday_validation_first "Alice" "16.04.1991" []
      [("Alice", ⟨"Alice", [], some ⟨1990, 3, 15⟩⟩)]
      ⟨"Alice", [], some ⟨1990, 3, 15⟩⟩ (by decide)).2
      ⟨1991, 4, 16⟩ (by decide)

/-! Helper lemmas about `takeWhile` and `dropWhile` decompositions. -/

theorem takeWhile_append_run {α : Type} (p : α → Bool) (run post : List α)
    (hrun : ∀ c ∈ run, p c = true)
    (hpost : ∀ c t, post = c :: t → p c = false) :
    (run ++ post).takeWhile p = run ∧ (run ++ post).dropWhile p = post := by
  induction run with
  | nil =>
    cases post with
    | nil => exact ⟨rfl, rfl⟩
    | cons c t => simp [List.takeWhile_cons, List.dropWhile_cons, hpost c t rfl]
  | cons c r ih =>
    have hc := hrun c (List.mem_cons_self c r)
    have ih' := ih fun x hx => hrun x (List.mem_cons_of_mem c hx)
    simp [List.takeWhile_cons, List.dropWhile_cons, hc, ih'.1, ih'.2]

theorem dropWhile_head_false {α : Type} (p : α → Bool) (l : List α) (c : α)
    (t : List α) (h : l.dropWhile p = c :: t) : p c = false := by
  induction l with
  | nil => simp [List.dropWhile] at h
  | cons x r ih =>
    rw [List.dropWhile_cons] at h
    by_cases hx : p x = true
    · exact ih (by simpa [hx] using h)
    · rw [if_neg hx] at h
      obtain ⟨rfl, -⟩ := List.cons.injEq .. ▸ h
      simpa using hx

theorem mem_takeWhile_pred {α : Type} (p : α → Bool) (l : List α) (c : α)
    (h : c ∈ l.takeWhile p) : p c = true := by
  induction l with
  | nil => simp [List.takeWhile] at h
  | cons x r ih =>
    rw [List.takeWhile_cons] at h
    by_cases hx : p x = true
    · rw [if_pos hx] at h
      rcases List.mem_cons.1 h with rfl | h'
      · exact hx
      · exact ih h'
    · rw [if_neg hx] at h
      simp at h

/-- Claim C3: `Phone` construction succeeds exactly when the first maximal
contiguous digit run of the input has length 10; on success the input is
stored verbatim, otherwise construction fails with the fixed message. -/
theorem C3_phone_validation (s : String) :
    (phoneMk s = .ok ⟨s⟩ ∨
      phoneMk s = .error "Phone number must contain 10 digits") ∧
    (phoneMk s = .ok ⟨s⟩ ↔
      ∃ pre run post : List Char, s.toList = pre ++ run ++ post ∧
        (∀ c ∈ pre, c.isDigit = false) ∧ (∀ c ∈ run, c.isDigit = true) ∧
        run.length = 10 ∧ (∀ c t, post = c :: t → c.isDigit = false)) := by
  constructor
  · by_cases h : (firstDigitRun s.toList).length = 10
    · left
      rw [phoneMk, if_pos h]
    · right
      rw [phoneMk, if_neg h]
  constructor
  · intro h
    have h10 : (firstDigitRun s.toList).length = 10 := by
      by_contra hne
      rw [phoneMk, if_neg hne] at h
      exact Except.noConfusion h
    refine ⟨s.toList.takeWhile (fun c => !c.isDigit), firstDigitRun s.toList,
      (s.toList.dropWhile (fun c => !c.isDigit)).dropWhile Char.isDigit,
      ?_, ?_, ?_, h10, ?_⟩
    · rw [firstDigitRun, List.append_assoc, List.takeWhile_append_dropWhile,
        List.takeWhile_append_dropWhile]
    · intro c hc
      have := mem_takeWhile_pred _ _ _ hc
      simpa using this
    · intro c hc
      exact mem_takeWhile_pred _ _ _ hc
    · intro c t ht
      exact dropWhile_head_false _ _ _ _ ht
  · rintro ⟨pre, run, post, hsplit, hpre, hrun, hlen, hpost⟩
    rw [List.append_assoc] at hsplit
    have hfr : firstDigitRun s.toList = run := by
      have hrunhead : ∀ c t, run ++ post = c :: t → (fun x => !x.isDigit) c = false := by
        intro c t hct
        cases run with
        | nil => simp at hlen
        | cons c0 r0 =>
          rw [List.cons_append] at hct
          obtain ⟨rfl, -⟩ := List.cons.injEq .. ▸ hct
          simp [hrun c0 (List.mem_cons_self c0 r0)]
      have h1 := takeWhile_append_run (fun x => !x.isDigit) pre (run ++ post)
        (fun c hc => by simp [hpre c hc]) hrunhead
      have h2 := takeWhile_append_run Char.isDigit run post hrun hpost
      rw [firstDigitRun, hsplit, h1.2, h2.1]
    rw [phoneMk, hfr, hlen, if_pos rfl]

/-- Claim C3 witness: a concrete valid and a concrete invalid phone. -/
theorem C3_phone_validation_witness :
    phoneMk "050-123-45-67" = .ok ⟨"050-123-45-67"⟩ ∨
      phoneMk "050-123-45-67" = .error "Phone number must contain 10 digits" :=
  (C3_phone_validation "050-123-45-67").1

/-- Claim C10: when the old number is valid and present, `edit_phone`
replaces exactly the first matching entry with the validated new phone and
returns the success message; the preceding entries, the following entries,
the order, the length, the record's name and its birthday are unchanged. -/
theorem C10_edit_first_occurrence (r : Record) (old new : String)
    (l₁ l₂ : List Phone) (pn : Phone)
    (hold : phoneMk old = .ok ⟨old⟩) (hnew : phoneMk new = .ok pn)
    (hdec : r.phones = l₁ ++ Phone.mk old :: l₂) (hl₁ : Phone.mk old ∉ l₁) :
    Record.edit_phone r old new =
      .ok ("Number has changed.", { r with phones := l₁ ++ pn :: l₂ }) := by
  have hmem : Phone.mk old ∈ r.phones := by
    rw [hdec]
    exact List.mem_append_right _ (List.mem_cons_self _ _)
  have hidx : r.phones.indexOf (Phone.mk old) = l₁.length := by
    rw [hdec, List.indexOf_append_of_not_mem hl₁, List.indexOf_cons_self,
      Nat.add_zero]
  have hset : r.phones.set (r.phones.indexOf (Phone.mk old)) pn = l₁ ++ pn :: l₂ := by
    rw [hidx, hdec, set_append_cons]
  simp [Record.edit_phone, hold, hnew, hmem, hset]

/-- Claim C10 witness: with a duplicated old number, only the first
occurrence is replaced. -/
theorem C10_edit_first_occurrence_witness :
    Record.edit_phone
        ⟨"Bob", [⟨"1111111111"⟩, ⟨"2222222222"⟩, ⟨"1111111111"⟩], none⟩
        "1111111111" "3333333333" =
      .ok ("Number has changed.",
        ⟨"Bob", [⟨"3333333333"⟩, ⟨"2222222222"⟩, ⟨"1111111111"⟩], none⟩) := by
  have h := C10_edit_first_occurrence
    ⟨"Bob", [⟨"1111111111"⟩, ⟨"2222222222"⟩, ⟨"1111111111"⟩], none⟩
    "1111111111" "3333333333" [] [⟨"2222222222"⟩, ⟨"1111111111"⟩]
    ⟨"3333333333"⟩ (by decide) (by decide) rfl (by decide)
  simpa using h

/-- Claim C5: when every stored birthday exists in `today`'s year (no
Feb 29 issue), `get_upcoming_birthdays` succeeds, and a line is in its
output exactly for the records with a birthday whose remap onto `today`'s
year lies in the inclusive window `[today, today + 7]`, rendered as
`name: DD.MM.YYYY` with the remapped date.  In particular no year
wraparound happens: only remapped dates at least `today` qualify. -/
theorem C5_upcoming_window (today : Date) (book : Book)
    (h : ∀ p ∈ book, ∀ b, (Prod.snd p).birthday = some b →
      b.day ≤ daysInMonth today.year b.month) :
    ∃ l, get_upcoming_birthdays today book = .ok l ∧
      ∀ line, line ∈ l ↔ ∃ n r b, (n, r) ∈ book ∧ r.birthday = some b ∧
        (Date.le today ⟨today.year, b.month, b.day⟩ &&
          Date.le ⟨today.year, b.month, b.day⟩ (addDays today 7)) = true ∧
        line = r.name ++ ": " ++ renderDate ⟨today.year, b.month, b.day⟩ := by
  induction book with
  | nil => exact ⟨[], rfl, fun line => by simp⟩
  | cons hd t ih =>
    obtain ⟨n₀, r₀⟩ := hd
    obtain ⟨l', hl', hiff⟩ := ih fun p hp => h p (List.mem_cons_of_mem _ hp)
    cases hb : r₀.birthday with
    | none =>
      refine ⟨l', by simp [get_upcoming_birthdays, hb, hl'], fun line => ?_⟩
      constructor
      · intro hline
        obtain ⟨n, r, b, hm, h1, h2, h3⟩ := (hiff line).1 hline
        exact ⟨n, r, b, List.mem_cons_of_mem _ hm, h1, h2, h3⟩
      · rintro ⟨n, r, b, hm, h1, h2, h3⟩
        rcases List.mem_cons.1 hm with heq | hm'
        · injection heq with hn hr
          subst hr
          rw [hb] at h1
          exact Option.noConfusion h1
        · exact (hiff line).2 ⟨n, r, b, hm', h1, h2, h3⟩
    | some b₀ =>
      have hle : b₀.day ≤ daysInMonth today.year b₀.month :=
        h (n₀, r₀) (List.mem_cons_self _ _) b₀ hb
      have hrep : replaceYear b₀ today.year = .ok ⟨today.year, b₀.month, b₀.day⟩ := by
        rw [replaceYear, if_pos hle]
      cases hw : Date.le today ⟨today.year, b₀.month, b₀.day⟩ &&
          Date.le ⟨today.year, b₀.month, b₀.day⟩ (addDays today 7) with
      | true =>
        refine ⟨(r₀.name ++ ": " ++ renderDate ⟨today.year, b₀.month, b₀.day⟩) :: l',
          by simp [get_upcoming_birthdays, hb, hrep, hl', hw], fun line => ?_⟩
        constructor
        · intro hline
          rcases List.mem_cons.1 hline with rfl | hline'
          · exact ⟨n₀, r₀, b₀, List.mem_cons_self _ _, hb, hw, rfl⟩
          · obtain ⟨n, r, b, hm, h1, h2, h3⟩ := (hiff line).1 hline'
            exact ⟨n, r, b, List.mem_cons_of_mem _ hm, h1, h2, h3⟩
        · rintro ⟨n, r, b, hm, h1, h2, h3⟩
          rcases List.mem_cons.1 hm with heq | hm'
          · injection heq with hn hr
            subst hr
            rw [hb] at h1
            obtain rfl := Option.some.injEq .. ▸ h1
            exact List.mem_cons.2 (Or.inl h3)
          · exact List.mem_cons_of_mem _ ((hiff line).2 ⟨n, r, b, hm', h1, h2, h3⟩)
      | false =>
        refine ⟨l', by simp [get_upcoming_birthdays, hb, hrep, hl', hw], fun line => ?_⟩
        constructor
        · intro hline
          obtain ⟨n, r, b, hm, h1, h2, h3⟩ := (hiff line).1 hline
          exact ⟨n, r, b, List.mem_cons_of_mem _ hm, h1, h2, h3⟩
        · rintro ⟨n, r, b, hm, h1, h2, h3⟩
          rcases List.mem_cons.1 hm with heq | hm'
          · injection heq with hn hr
            subst hr
            rw [hb] at h1
            obtain rfl := Option.some.injEq .. ▸ h1
            rw [hw] at h2
            exact Bool.noConfusion h2
          · exact (hiff line).2 ⟨n, r, b, hm', h1, h2, h3⟩

/-- Claim C5 witness: the spec scenario, today = 10.03.2024 with Alice's
birthday 15.03.1990. -/
theorem C5_upcoming_window_witness :
    ∃ l, get_upcoming_birthdays ⟨2024, 3, 10⟩
        [("Alice", ⟨"Alice", [], some ⟨1990, 3, 15⟩⟩)] = .ok l ∧
      ∀ line, line ∈ l ↔ ∃ n r b,
        (n, r) ∈ [("Alice", (⟨"Alice", [], some ⟨1990, 3, 15⟩⟩ : Record))] ∧
        r.birthday = some b ∧
        (Date.le ⟨2024, 3, 10⟩ ⟨2024, b.month, b.day⟩ &&
          Date.le ⟨2024, b.month, b.day⟩ (addDays ⟨2024, 3, 10⟩ 7)) = true ∧
        line = r.name ++ ": " ++ renderDate ⟨2024, b.month, b.day⟩ :=
  C5_upcoming_window ⟨2024, 3, 10⟩
    [("Alice", ⟨"Alice", [], some ⟨1990, 3, 15⟩⟩)] (by decide)

theorem upcoming_ok_bounds (today : Date) (book : Book) (l : List String)
    (h : get_upcoming_birthdays today book = .ok l) :
    ∀ p ∈ book, ∀ b, (Prod.snd p).birthday = some b →
      b.day ≤ daysInMonth today.year b.month := by
  induction book generalizing l with
  | nil =>
    intro p hp
    simp at hp
  | cons hd t ih =>
    obtain ⟨n₀, r₀⟩ := hd
    intro p hp b hb
    rcases List.mem_cons.1 hp with heq | hp'
    · subst heq
      have hb' : r₀.birthday = some b := hb
      simp only [get_upcoming_birthdays, hb'] at h
      by_contra hgt
      rw [replaceYear, if_neg hgt] at h
      simp at h
    · cases hb0 : r₀.birthday with
      | none =>
        simp only [get_upcoming_birthdays, hb0] at h
        exact ih l h p hp' b hb
      | some b₀ =>
        simp only [get_upcoming_birthdays, hb0] at h
        cases hrep : replaceYear b₀ today.year with
        | error e =>
          simp only [hrep] at h
          exact Except.noConfusion h
        | ok bty =>
          simp only [hrep] at h
          cases ht : get_upcoming_birthdays today t with
          | error e =>
            simp only [ht] at h
            exact Except.noConfusion h
          | ok rest => exact ih rest ht p hp' b hb

theorem upcoming_error_msg (today : Date) (book : Book) (e : String)
    (h : get_upcoming_birthdays today book = .error e) :
    e = "day is out of range for month" := by
  induction book generalizing e with
  | nil => exact Except.noConfusion h
  | cons hd t ih =>
    obtain ⟨n₀, r₀⟩ := hd
    cases hb0 : r₀.birthday with
    | none =>
      simp only [get_upcoming_birthdays, hb0] at h
      exact ih e h
    | some b₀ =>
      simp only [get_upcoming_birthdays, hb0] at h
      by_cases hle : b₀.day ≤ daysInMonth today.year b₀.month
      · rw [replaceYear, if_pos hle] at h
        simp only [] at h
        cases ht : get_upcoming_birthdays today t with
        | error e' =>
          simp only [ht] at h
          cases h
          exact ih e ht
        | ok rest =>
          simp only [ht] at h
          cases hw : Date.le today ⟨today.year, b₀.month, b₀.day⟩ &&
              Date.le ⟨today.year, b₀.month, b₀.day⟩ (addDays today 7) with
          | true =>
            simp only [hw] at h
            simp at h
          | false =>
            simp only [hw] at h
            simp at h
      · rw [replaceYear, if_neg hle] at h
        simp only [] at h
        cases h
        rfl

/-- Claim C8: a record whose birthday is February 29 makes
`get_upcoming_birthdays` raise `ValueError("day is out of range for
month")` whenever `today`'s year is not a leap year, so the `birthdays`
handler returns that message instead of a list of lines. -/
theorem C8_feb29_nonleap (today : Date) (book : Book) (n : String)
    (r : Record) (b : Date) (hmem : (n, r) ∈ book) (hb : r.birthday = some b)
    (hm : b.month = 2) (hd : b.day = 29) (hleap : isLeap today.year = false) :
    get_upcoming_birthdays today book = .error "day is out of range for month" ∧
    birthdays today book = "day is out of range for month" := by
  have hgt : ¬ b.day ≤ daysInMonth today.year b.month := by
    rw [hm, hd, daysInMonth]
    simp [hleap]
  have herr : ∃ e, get_upcoming_birthdays today book = .error e := by
    cases hres : get_upcoming_birthdays today book with
    | error e => exact ⟨e, rfl⟩
    | ok l =>
      exact absurd (upcoming_ok_bounds today book l hres (n, r) hmem b hb) hgt
  obtain ⟨e, he⟩ := herr
  obtain rfl := upcoming_error_msg today book e he
  refine ⟨he, ?_⟩
  rw [birthdays, he]

/-- Claim C8 witness: Alice born 29.02.2020, with today in 2021. -/
theorem C8_feb29_nonleap_witness :
    get_upcoming_birthdays ⟨2021, 2, 25⟩
        [("Alice", ⟨"Alice", [], some ⟨2020, 2, 29⟩⟩)] =
      .error "day is out of range for month" ∧
    birthdays ⟨2021, 2, 25⟩ [("Alice", ⟨"Alice", [], some ⟨2020, 2, 29⟩⟩)] =
      "day is out of range for month" :=
  C8_feb29_nonleap ⟨2021, 2, 25⟩ [("Alice", ⟨"Alice", [], some ⟨2020, 2, 29⟩⟩)]
    "Alice" ⟨"Alice", [], some ⟨2020, 2, 29⟩⟩ ⟨2020, 2, 29⟩
    (List.mem_cons_self _ _) rfl rfl rfl rfl

/-! Digit-character arithmetic used to relate parsing and rendering. -/

theorem isDigit_bounds (c : Char) (h : c.isDigit = true) :
    48 ≤ c.toNat ∧ c.toNat ≤ 57 := by
  simp only [Char.isDigit, Bool.and_eq_true, decide_eq_true_eq] at h
  exact ⟨h.1, h.2⟩

theorem toNat_natDigit {k : Nat} (h : k < 10) : (natDigit k).toNat = 48 + k := by
  interval_cases k <;> decide

theorem isDigit_natDigit {k : Nat} (h : k < 10) : (natDigit k).isDigit = true := by
  interval_cases k <;> decide

theorem natDigit_toNat_char (c : Char) (h : c.isDigit = true) :
    natDigit (c.toNat - 48) = c := by
  obtain ⟨h1, -⟩ := isDigit_bounds c h
  rw [natDigit, Nat.add_sub_cancel' h1]
  exact Char.ofNat_toNat c

theorem pad2_digits (n : Nat) : ∀ c ∈ pad2 n, c.isDigit = true := by
  intro c hc
  simp only [pad2, List.mem_cons, List.not_mem_nil, or_false] at hc
  rcases hc with rfl | rfl
  · exact isDigit_natDigit (by omega)
  · exact isDigit_natDigit (by omega)

theorem pad4_digits (n : Nat) : ∀ c ∈ pad4 n, c.isDigit = true := by
  intro c hc
  simp only [pad4, List.mem_cons, List.not_mem_nil, or_false] at hc
  rcases hc with rfl | rfl | rfl | rfl
  · exact isDigit_natDigit (by omega)
  · exact isDigit_natDigit (by omega)
  · exact isDigit_natDigit (by omega)
  · exact isDigit_natDigit (by omega)

theorem natOfDigits_pad2 (n : Nat) (h : n < 100) : natOfDigits (pad2 n) = n := by
  simp only [natOfDigits, pad2, List.foldl,
    toNat_natDigit (show n / 10 % 10 < 10 by omega),
    toNat_natDigit (show n % 10 < 10 by omega)]
  omega

theorem natOfDigits_pad4 (n : Nat) (h : n < 10000) : natOfDigits (pad4 n) = n := by
  simp only [natOfDigits, pad4, List.foldl,
    toNat_natDigit (show n / 1000 % 10 < 10 by omega),
    toNat_natDigit (show n / 100 % 10 < 10 by omega),
    toNat_natDigit (show n / 10 % 10 < 10 by omega),
    toNat_natDigit (show n % 10 < 10 by omega)]
  omega

theorem pad2_natOfDigits (a b : Char) (ha : a.isDigit = true)
    (hb : b.isDigit = true) : pad2 (natOfDigits [a, b]) = [a, b] := by
  obtain ⟨ha1, ha2⟩ := isDigit_bounds a ha
  obtain ⟨hb1, hb2⟩ := isDigit_bounds b hb
  have hval : natOfDigits [a, b] = (a.toNat - 48) * 10 + (b.toNat - 48) := by
    simp only [natOfDigits, List.foldl]
    omega
  have h1 : ((a.toNat - 48) * 10 + (b.toNat - 48)) / 10 % 10 = a.toNat - 48 := by
    omega
  have h2 : ((a.toNat - 48) * 10 + (b.toNat - 48)) % 10 = b.toNat - 48 := by
    omega
  rw [pad2, hval, h1, h2, natDigit_toNat_char a ha, natDigit_toNat_char b hb]

theorem pad4_natOfDigits (a b c d : Char) (ha : a.isDigit = true)
    (hb : b.isDigit = true) (hc : c.isDigit = true) (hd : d.isDigit = true) :
    pad4 (natOfDigits [a, b, c, d]) = [a, b, c, d] := by
  obtain ⟨ha1, ha2⟩ := isDigit_bounds a ha
  obtain ⟨hb1, hb2⟩ := isDigit_bounds b hb
  obtain ⟨hc1, hc2⟩ := isDigit_bounds c hc
  obtain ⟨hd1, hd2⟩ := isDigit_bounds d hd
  have hval : natOfDigits [a, b, c, d] =
      ((a.toNat - 48) * 10 + (b.toNat - 48)) * 100 +
        ((c.toNat - 48) * 10 + (d.toNat - 48)) := by
    simp only [natOfDigits, List.foldl]
    omega
  have e1 : (((a.toNat - 48) * 10 + (b.toNat - 48)) * 100 +
      ((c.toNat - 48) * 10 + (d.toNat - 48))) / 1000 % 10 = a.toNat - 48 := by
    omega
  have e2 : (((a.toNat - 48) * 10 + (b.toNat - 48)) * 100 +
      ((c.toNat - 48) * 10 + (d.toNat - 48))) / 100 % 10 = b.toNat - 48 := by
    omega
  have e3 : (((a.toNat - 48) * 10 + (b.toNat - 48)) * 100 +
      ((c.toNat - 48) * 10 + (d.toNat - 48))) / 10 % 10 = c.toNat - 48 := by
    omega
  have e4 : (((a.toNat - 48) * 10 + (b.toNat - 48)) * 100 +
      ((c.toNat - 48) * 10 + (d.toNat - 48))) % 10 = d.toNat - 48 := by
    omega
  rw [pad4, hval, e1, e2, e3, e4, natDigit_toNat_char a ha,
    natDigit_toNat_char b hb, natDigit_toNat_char c hc, natDigit_toNat_char d hd]

theorem natOfDigits_four_lt (l : List Char) (hdig : ∀ c ∈ l, c.isDigit = true)
    (hl : l.length = 4) : natOfDigits l < 10000 := by
  rcases l with - | ⟨a, - | ⟨b, - | ⟨c, - | ⟨d, rest⟩⟩⟩⟩
  · simp at hl
  · simp at hl
  · simp at hl
  · simp at hl
  · have hrest : rest = [] := by
      simp only [List.length_cons] at hl
      exact List.length_eq_zero.1 (by omega)
    subst hrest
    obtain ⟨ha1, ha2⟩ := isDigit_bounds a (hdig a (by simp))
    obtain ⟨hb1, hb2⟩ := isDigit_bounds b (hdig b (by simp))
    obtain ⟨hc1, hc2⟩ := isDigit_bounds c (hdig c (by simp))
    obtain ⟨hd1, hd2⟩ := isDigit_bounds d (hdig d (by simp))
    simp only [natOfDigits, List.foldl]
    omega

theorem daysInMonth_le31 (y m : Nat) : daysInMonth y m ≤ 31 := by
  rw [daysInMonth]
  split
  · split <;> omega
  · split <;> omega

/-- The set of strings `strptime` with format `%d.%m.%Y` accepts, phrased
as the spec describes the accepted shape: an optional leading space (only
with a one-digit day), a one- or two-digit day, a dot, a one- or two-digit
month, a dot, and exactly four year digits, denoting a real calendar date
with year at least 1. -/
def flexFormatDMY (s : String) (dt : Date) : Prop :=
  ∃ sp ds ms ys : List Char,
    s.toList = sp ++ (ds ++ ('.' :: (ms ++ ('.' :: ys)))) ∧
    ((sp = [] ∧ (ds.length = 1 ∨ ds.length = 2)) ∨
      (sp = [' '] ∧ ds.length = 1)) ∧
    (∀ c ∈ ds, c.isDigit = true) ∧ (∀ c ∈ ms, c.isDigit = true) ∧
    (∀ c ∈ ys, c.isDigit = true) ∧
    (ms.length = 1 ∨ ms.length = 2) ∧ ys.length = 4 ∧
    natOfDigits ds = dt.day ∧ natOfDigits ms = dt.month ∧
    natOfDigits ys = dt.year ∧
    1 ≤ dt.day ∧ 1 ≤ dt.month ∧ dt.month ≤ 12 ∧ 1 ≤ dt.year ∧
    dt.day ≤ daysInMonth dt.year dt.month

theorem splitDay_eq_some (l ds r1 : List Char) (h : splitDay l = some (ds, r1)) :
    (∀ c ∈ ds, c.isDigit = true) ∧ (∀ c t, r1 = c :: t → c.isDigit = false) ∧
    ((l = ds ++ r1 ∧ (ds.length = 1 ∨ ds.length = 2)) ∨
      (l = ' ' :: (ds ++ r1) ∧ ds.length = 1)) := by
  cases l with
  | nil => exact Option.noConfusion h
  | cons c r =>
    simp only [splitDay] at h
    by_cases hc : c = ' '
    · rw [if_pos hc] at h
      by_cases hlen : (r.takeWhile Char.isDigit).length = 1
      · rw [if_pos hlen] at h
        injection h with h'
        injection h' with h1 h2
        subst h1
        subst h2
        refine ⟨fun x hx => mem_takeWhile_pred _ _ _ hx,
          fun x t hxt => dropWhile_head_false _ _ _ _ hxt,
          Or.inr ⟨?_, hlen⟩⟩
        rw [hc, List.takeWhile_append_dropWhile]
      · rw [if_neg hlen] at h
        exact Option.noConfusion h
    · rw [if_neg hc] at h
      by_cases hlen : ((c :: r).takeWhile Char.isDigit).length = 1 ∨
          ((c :: r).takeWhile Char.isDigit).length = 2
      · rw [if_pos hlen] at h
        injection h with h'
        injection h' with h1 h2
        subst h1
        subst h2
        exact ⟨fun x hx => mem_takeWhile_pred _ _ _ hx,
          fun x t hxt => dropWhile_head_false _ _ _ _ hxt,
          Or.inl ⟨(List.takeWhile_append_dropWhile _ _).symm, hlen⟩⟩
      · rw [if_neg hlen] at h
        exact Option.noConfusion h

theorem parseDMY_decomp (s : String) (sp ds ms ys : List Char)
    (hs : s.toList = sp ++ (ds ++ ('.' :: (ms ++ ('.' :: ys)))))
    (hsp : (sp = [] ∧ (ds.length = 1 ∨ ds.length = 2)) ∨
      (sp = [' '] ∧ ds.length = 1))
    (hds : ∀ c ∈ ds, c.isDigit = true) (hms : ∀ c ∈ ms, c.isDigit = true)
    (hys : ∀ c ∈ ys, c.isDigit = true)
    (hmsl : ms.length = 1 ∨ ms.length = 2) (hysl : ys.length = 4) :
    parseDMY s =
      if 1 ≤ natOfDigits ds ∧ natOfDigits ds ≤ 31 ∧ 1 ≤ natOfDigits ms ∧
          natOfDigits ms ≤ 12 ∧ 1 ≤ natOfDigits ys ∧
          natOfDigits ds ≤ daysInMonth (natOfDigits ys) (natOfDigits ms) then
        some ⟨natOfDigits ys, natOfDigits ms, natOfDigits ds⟩
      else none := by
  have hdot : ∀ (c : Char) (t : List Char),
      ('.' :: (ms ++ ('.' :: ys)) : List Char) = c :: t → c.isDigit = false := by
    intro c t hct
    obtain ⟨rfl, -⟩ := List.cons.injEq .. ▸ hct
    decide
  have hrun := takeWhile_append_run Char.isDigit ds ('.' :: (ms ++ ('.' :: ys)))
    hds hdot
  have hsd : splitDay s.toList = some (ds, '.' :: (ms ++ ('.' :: ys))) := by
    rcases hsp with ⟨rfl, hlen⟩ | ⟨rfl, hlen⟩
    · rw [List.nil_append] at hs
      cases ds with
      | nil => simp at hlen
      | cons c0 dt0 =>
        have hc0 : c0.isDigit = true := hds c0 (List.mem_cons_self _ _)
        have hcs : ¬ c0 = ' ' := by
          intro he
          rw [he] at hc0
          exact absurd hc0 (by decide)
        rw [hs, List.cons_append]
        simp only [splitDay]
        rw [if_neg hcs, ← List.cons_append, hrun.1, hrun.2, if_pos hlen]
    · rw [hs, List.singleton_append]
      simp only [splitDay]
      rw [if_pos trivial, hrun.1, hrun.2, if_pos hlen]
  have hmdot : ∀ (c : Char) (t : List Char),
      ('.' :: ys : List Char) = c :: t → c.isDigit = false := by
    intro c t hct
    obtain ⟨rfl, -⟩ := List.cons.injEq .. ▸ hct
    decide
  have hmrun := takeWhile_append_run Char.isDigit ms ('.' :: ys) hms hmdot
  have hyrun := takeWhile_append_run Char.isDigit ys [] hys (by
    intro c t hct
    exact absurd hct (by simp))
  rw [List.append_nil] at hyrun
  simp only [parseDMY, hsd, hmrun.1, hmrun.2, hyrun.1, hyrun.2]
  rw [if_pos ⟨trivial, hmsl, hysl⟩]

theorem parseDMY_some_flex (s : String) (dt : Date)
    (h : parseDMY s = some dt) : flexFormatDMY s dt := by
  cases hsd : splitDay s.toList with
  | none =>
    simp only [parseDMY, hsd] at h
    exact Option.noConfusion h
  | some pr =>
    obtain ⟨ds, r1⟩ := pr
    obtain ⟨hdsdig, hr1head, hshape⟩ := splitDay_eq_some s.toList ds r1 hsd
    simp only [parseDMY, hsd] at h
    cases r1 with
    | nil => exact Option.noConfusion h
    | cons c1 t1 =>
      split at h
      · next r2x heq1 =>
        injection heq1 with hc1eq ht1eq
        subst hc1eq
        subst ht1eq
        split at h
        · next r4 heqr2 =>
          split at h
          · next hcond =>
            split at h
            · next hbounds =>
              injection h with h'
              subst h'
              obtain ⟨hc1, hc2, hc3⟩ := hcond
              have hys_eq : r4.takeWhile Char.isDigit = r4 := by
                have htw := List.takeWhile_append_dropWhile Char.isDigit r4
                rw [hc1, List.append_nil] at htw
                exact htw
              have hr2 : t1 = t1.takeWhile Char.isDigit ++ ('.' :: r4) := by
                rw [← heqr2]
                exact (List.takeWhile_append_dropWhile _ _).symm
              have hmsdig : ∀ c ∈ t1.takeWhile Char.isDigit, c.isDigit = true :=
                fun c hc => mem_takeWhile_pred _ _ _ hc
              have hysdig : ∀ c ∈ r4, c.isDigit = true := by
                intro c hc
                rw [← hys_eq] at hc
                exact mem_takeWhile_pred _ _ _ hc
              have hysl : r4.length = 4 := by
                rw [← hys_eq]
                exact hc3
              have hyval : natOfDigits r4 =
                  natOfDigits (r4.takeWhile Char.isDigit) := by
                rw [hys_eq]
              rcases hshape with ⟨hl, hdsl⟩ | ⟨hl, hdsl⟩
              · exact ⟨[], ds, t1.takeWhile Char.isDigit, r4,
                  by rw [List.nil_append, hl, ← hr2],
                  Or.inl ⟨rfl, hdsl⟩, hdsdig, hmsdig, hysdig, hc2, hysl,
                  rfl, rfl, hyval,
                  hbounds.1, hbounds.2.2.1, hbounds.2.2.2.1,
                  hbounds.2.2.2.2.1, hbounds.2.2.2.2.2⟩
              · exact ⟨[' '], ds, t1.takeWhile Char.isDigit, r4,
                  by rw [List.singleton_append, hl, ← hr2],
                  Or.inr ⟨rfl, hdsl⟩, hdsdig, hmsdig, hysdig, hc2, hysl,
                  rfl, rfl, hyval,
                  hbounds.1, hbounds.2.2.1, hbounds.2.2.2.1,
                  hbounds.2.2.2.2.1, hbounds.2.2.2.2.2⟩
            · exact Option.noConfusion h
          · exact Option.noConfusion h
        · exact Option.noConfusion h
      · exact Option.noConfusion h

theorem length_eq_four_list {α : Type} (l : List α) (h : l.length = 4) :
    ∃ a b c d, l = [a, b, c, d] := by
  rcases l with - | ⟨a, - | ⟨b, - | ⟨c, - | ⟨d, rest⟩⟩⟩⟩
  · simp at h
  · simp at h
  · simp at h
  · simp at h
  · have hrest : rest = [] := by
      simp only [List.length_cons] at h
      exact List.length_eq_zero.1 (by omega)
    exact ⟨a, b, c, d, by rw [hrest]⟩

theorem birthdayMk_ok_iff (s : String) (dt : Date) :
    birthdayMk s = .ok dt ↔ parseDMY s = some dt := by
  cases hp : parseDMY s with
  | none => simp [birthdayMk, hp]
  | some d => simp [birthdayMk, hp]

/-- Claim C2 counterexample: `"5.3.1990"` does not match the strict
two-digit-day, two-digit-month shape, yet `Birthday` construction
succeeds on it (CPython's `%d`/`%m` also accept one digit). -/
theorem C2_counterexample :
    birthdayMk "5.3.1990" = .ok ⟨1990, 3, 5⟩ ∧
    ¬ birthdayMk "5.3.1990" = .error "Invalid date format. Use DD.MM.YYYY" := by
  decide

/-- Claim C2 (amended): `Birthday` construction succeeds exactly on the
strings accepted by `strptime("%d.%m.%Y")` — day and month may have one
or two digits (a one-digit day may also be space-padded), the year has
exactly four digits, and the triple denotes a real calendar date with
year at least 1; every other string fails with the fixed message.
Re-rendering zero-pads day and month and yields the input exactly when
the input was already in the strict `DD.MM.YYYY` shape. -/
theorem C2_birthday_format (s : String) :
    (∀ dt, birthdayMk s = .ok dt ↔ flexFormatDMY s dt) ∧
    ((∀ dt, ¬ flexFormatDMY s dt) →
      birthdayMk s = .error "Invalid date format. Use DD.MM.YYYY") ∧
    (∀ dt, birthdayMk s = .ok dt →
      birthdayMk (renderDate dt) = .ok dt ∧
      (∀ ds ms ys : List Char,
        s.toList = ds ++ ('.' :: (ms ++ ('.' :: ys))) →
        (∀ c ∈ ds, c.isDigit = true) → (∀ c ∈ ms, c.isDigit = true) →
        (∀ c ∈ ys, c.isDigit = true) →
        ds.length = 2 → ms.length = 2 → ys.length = 4 →
        renderDate dt = s)) := by
  have flex_to_parse : ∀ dt, flexFormatDMY s dt → parseDMY s = some dt := by
    rintro dt ⟨sp, ds, ms, ys, hs, hsp, hds, hms, hys, hmsl, hysl, hdval,
      hmval, hyval, hb1, hb2, hb3, hb4, hb5⟩
    have hdec := parseDMY_decomp s sp ds ms ys hs hsp hds hms hys hmsl hysl
    rw [hdec, hdval, hmval, hyval,
      if_pos ⟨hb1, le_trans hb5 (daysInMonth_le31 _ _), hb2, hb3, hb4, hb5⟩]
  refine ⟨?_, ?_, ?_⟩
  · intro dt
    rw [birthdayMk_ok_iff]
    exact ⟨parseDMY_some_flex s dt, flex_to_parse dt⟩
  · intro hnot
    cases hp : parseDMY s with
    | none => simp [birthdayMk, hp]
    | some d => exact absurd (parseDMY_some_flex s d hp) (hnot d)
  · intro dt hok
    have hflex := parseDMY_some_flex s dt ((birthdayMk_ok_iff s dt).1 hok)
    obtain ⟨sp, ds, ms, ys, hs, hsp, hds, hms, hys, hmsl, hysl, hdval,
      hmval, hyval, hb1, hb2, hb3, hb4, hb5⟩ := hflex
    have hday100 : dt.day < 100 :=
      lt_of_le_of_lt (le_trans hb5 (daysInMonth_le31 _ _)) (by norm_num)
    have hmon100 : dt.month < 100 := by omega
    have hyear : dt.year < 10000 := by
      rw [← hyval]
      exact natOfDigits_four_lt ys hys hysl
    constructor
    · apply (birthdayMk_ok_iff _ _).2
      have hdec := parseDMY_decomp (renderDate dt) [] (pad2 dt.day)
        (pad2 dt.month) (pad4 dt.year)
        (by
          rw [List.nil_append]
          show ((pad2 dt.day ++ '.' :: pad2 dt.month) ++ '.' :: pad4 dt.year :
            List Char) = _
          rw [List.append_assoc, List.cons_append])
        (Or.inl ⟨rfl, Or.inr rfl⟩) (pad2_digits _) (pad2_digits _)
        (pad4_digits _) (Or.inr rfl) rfl
      rw [hdec, natOfDigits_pad2 _ hday100, natOfDigits_pad2 _ hmon100,
        natOfDigits_pad4 _ hyear,
        if_pos ⟨hb1, le_trans hb5 (daysInMonth_le31 _ _), hb2, hb3, hb4, hb5⟩]
    · intro ds' ms' ys' hsplit hdsd hmsd hysd hlds hlms hlys
      have hdec := parseDMY_decomp s [] ds' ms' ys'
        (by rw [List.nil_append]; exact hsplit) (Or.inl ⟨rfl, Or.inr hlds⟩)
        hdsd hmsd hysd (Or.inr hlms) hlys
      have hok' := (birthdayMk_ok_iff s dt).1 hok
      rw [hdec] at hok'
      by_cases hcnd : 1 ≤ natOfDigits ds' ∧ natOfDigits ds' ≤ 31 ∧
          1 ≤ natOfDigits ms' ∧ natOfDigits ms' ≤ 12 ∧
          1 ≤ natOfDigits ys' ∧
          natOfDigits ds' ≤ daysInMonth (natOfDigits ys') (natOfDigits ms')
      · rw [if_pos hcnd] at hok'
        injection hok' with h'
        subst h'
        obtain ⟨a, b, rfl⟩ := List.length_eq_two.1 hlds
        obtain ⟨a2, b2, rfl⟩ := List.length_eq_two.1 hlms
        obtain ⟨y1, y2, y3, y4, rfl⟩ := length_eq_four_list ys' hlys
        have e1 := pad2_natOfDigits a b (hdsd a (by simp)) (hdsd b (by simp))
        have e2 := pad2_natOfDigits a2 b2 (hmsd a2 (by simp)) (hmsd b2 (by simp))
        have e3 := pad4_natOfDigits y1 y2 y3 y4 (hysd y1 (by simp))
          (hysd y2 (by simp)) (hysd y3 (by simp)) (hysd y4 (by simp))
        show String.mk _ = s
        rw [show (⟨natOfDigits [y1, y2, y3, y4], natOfDigits [a2, b2],
            natOfDigits [a, b]⟩ : Date).day = natOfDigits [a, b] from rfl]
        rw [show (⟨natOfDigits [y1, y2, y3, y4], natOfDigits [a2, b2],
            natOfDigits [a, b]⟩ : Date).month = natOfDigits [a2, b2] from rfl]
        rw [show (⟨natOfDigits [y1, y2, y3, y4], natOfDigits [a2, b2],
            natOfDigits [a, b]⟩ : Date).year = natOfDigits [y1, y2, y3, y4] from rfl]
        rw [e1, e2, e3]
        have hlist : ([a, b] ++ ['.', a2, b2] ++ ['.', y1, y2, y3, y4] :
            List Char) = [a, b] ++ '.' :: ([a2, b2] ++ ['.', y1, y2, y3, y4]) := by
          simp
        rw [hlist, ← hsplit]
        rfl
      · rw [if_neg hcnd] at hok'
        exact Option.noConfusion hok'

/-- Claim C2 witness: a concrete instance of the amended statement. -/
theorem C2_birthday_format_witness :
    birthdayMk "15.03.1990" = .ok ⟨1990, 3, 15⟩ ∧
    renderDate ⟨1990, 3, 15⟩ = "15.03.1990" := by
  have h := ((C2_birthday_format "15.03.1990").2.2 ⟨1990, 3, 15⟩ (by decide)).2
    ['1', '5'] ['0', '3'] ['1', '9', '9', '0'] rfl (by decide) (by decide)
    (by decide) rfl rfl rfl
  exact ⟨by decide, h⟩
